import Mathlib

/-!
Shallow embedding of the `ditto` in-memory key-value store
(src/C/src/ditto.c, public interface in src/C/include/ditto.h).

Modelling conventions:
- A C string (`const char*`) is a `List Nat` of its bytes up to the NUL
  terminator (bytes taken as unsigned char values); `strcmp == 0` becomes
  list equality.
- A byte buffer of length `len` passed to `ditto_put` is the `List Nat` of
  the `len` bytes read from it.
- A nullable pointer argument is an `Option`; `none` models `NULL`.
- Return statuses are the literal `int32_t` codes of the C code, as `Int`:
  `0` success, `1` buffer too small, `2` key not found, `-1` every other
  failure (argument error, allocation failure, no free subscription slot,
  unsubscribe target not found).
- Heap allocation (`malloc`/`calloc`/`strdup`) may fail; each call of a
  store operation takes an allocation oracle `List Bool`, consumed
  positionally by the allocation sites in program order; a missing oracle
  entry defaults to a successful allocation.
- `uint32_t` arithmetic in the hash is modelled with `% 2 ^ 32`.
- `next_sub_id` is an `int32_t` counter; it is modelled as `Int` with exact
  arithmetic (signed overflow of the counter is undefined behaviour in C,
  outside the defined-behaviour region this model covers).
- A callback function pointer is an opaque `Option Nat` (`none` = `NULL`);
  a `void* user_data` is an opaque `Nat` (`0` = `NULL`).
- Invoking a callback is modelled as emitting the observable event
  `(callback, user_data, key)`; each mutating entry point returns the list
  of events it emitted, in invocation order.
-/

namespace Ditto

set_option maxRecDepth 100000

abbrev Key := List Nat
abbrev Bytes := List Nat

/-- `#define HASH_SIZE 256` -/
def HASH_SIZE : Nat := 256

/-- `#define MAX_SUBSCRIPTIONS 100` -/
def MAX_SUBSCRIPTIONS : Nat := 100

/-- `hash_string`: djb2 hash, seed 5381, multiplier 33, `uint32_t`
arithmetic, reduced modulo `HASH_SIZE`. -/
def hash_string (key : Key) : Nat :=
  (key.foldl (fun h c => (h * 33 + c) % 2 ^ 32) 5381) % HASH_SIZE

/-- `kv_entry_t`: one hash-table node. `data.length` is the stored `len`
field (the node stores exactly the `len` bytes copied in). The `next`
pointer is the list structure of the chain. -/
structure kv_entry where
  key : Key
  data : Bytes
deriving DecidableEq, Repr

/-- `hash_table_t`: `HASH_SIZE` bucket chains (the mutex is not modelled;
all modelled executions are single-threaded). -/
structure hash_table where
  buckets : List (List kv_entry)
deriving DecidableEq, Repr

/-- `hash_table_create`: `calloc` zeroes every bucket head. -/
def hash_table_create : hash_table :=
  ⟨List.replicate HASH_SIZE []⟩

/-- The update loop of `hash_table_put`: scan the chain for `key`.
`none` if the key is absent from the chain. If found, replace the value
in place when the `malloc` for the new value succeeds (`allocOk`),
otherwise report `-1` with the chain untouched. -/
def chain_put_existing (key : Key) (data : Bytes) (allocOk : Bool) :
    List kv_entry → Option (Int × List kv_entry)
  | [] => none
  | e :: rest =>
    if e.key = key then
      if allocOk then some (0, { key := e.key, data := data } :: rest)
      else some (-1, e :: rest)
    else
      (chain_put_existing key data allocOk rest).map (fun r => (r.1, e :: r.2))

/-- `hash_table_put`. Oracle slots: update path uses slot 0 for the value
`malloc`; insert path uses slot 0 for the node `calloc`, slot 1 for
`strdup(key)`, slot 2 for the value `malloc`. On any allocation failure
the function returns `-1` and the table is untouched. -/
def hash_table_put (table : hash_table) (key : Key) (data : Bytes)
    (oracle : List Bool) : Int × hash_table :=
  let idx := hash_string key
  let chain := table.buckets.getD idx []
  match chain_put_existing key data (oracle.getD 0 true) chain with
  | some r => if r.1 = 0 then (0, ⟨table.buckets.set idx r.2⟩) else (-1, table)
  | none =>
    if oracle.getD 0 true then
      if oracle.getD 1 true && oracle.getD 2 true then
        (0, ⟨table.buckets.set idx ({ key := key, data := data } :: chain)⟩)
      else (-1, table)
    else (-1, table)

/-- The scan loop of `hash_table_get` / `hash_table_delete`: first chain
entry with a matching key. -/
def chain_find (key : Key) : List kv_entry → Option Bytes
  | [] => none
  | e :: rest => if e.key = key then some e.data else chain_find key rest

/-- `hash_table_get`. Result is `(status, written inout_len, final buffer
contents)`. A `none` buffer is a `NULL` `out_buf`; a `some buf` buffer
holds the caller bytes `buf`, and a successful copy of `v` overwrites its
first `v.length` bytes. -/
def hash_table_get (table : hash_table) (key : Key)
    (out_buf : Option Bytes) (inout_len : Nat) : Int × Nat × Option Bytes :=
  match chain_find key (table.buckets.getD (hash_string key) []) with
  | none => (2, inout_len, out_buf)
  | some v =>
    match out_buf with
    | none => (1, v.length, none)
    | some buf =>
      if inout_len < v.length then (1, v.length, some buf)
      else (0, v.length, some (v ++ buf.drop v.length))

/-- The unlink loop of `hash_table_delete`: remove the first chain entry
with a matching key; `none` if the key is absent. -/
def chain_delete (key : Key) : List kv_entry → Option (List kv_entry)
  | [] => none
  | e :: rest =>
    if e.key = key then some rest
    else (chain_delete key rest).map (fun l => e :: l)

/-- `hash_table_delete`. -/
def hash_table_delete (table : hash_table) (key : Key) : Int × hash_table :=
  let idx := hash_string key
  match chain_delete key (table.buckets.getD idx []) with
  | none => (2, table)
  | some chain => (0, ⟨table.buckets.set idx chain⟩)

/-- `subscription_t`. -/
structure subscription where
  id : Int
  callback : Option Nat
  user_data : Nat
  active : Bool
deriving DecidableEq, Repr

/-- `struct ditto_db`. -/
structure ditto_db where
  table : hash_table
  subscriptions : List subscription
  next_sub_id : Int
deriving DecidableEq, Repr

/-- The success path of `ditto_open`: `calloc` zeroes the struct, then
`next_sub_id = 1` and every slot is marked inactive. -/
def ditto_open : ditto_db :=
  { table := hash_table_create
    subscriptions := List.replicate MAX_SUBSCRIPTIONS
      { id := 0, callback := none, user_data := 0, active := false }
    next_sub_id := 1 }

/-- An invocation event `(callback, user_data, key)`. -/
abbrev Event := Nat × Nat × Key

/-- `notify_subscribers`: invoke, in slot order, every active slot whose
callback pointer is non-`NULL`. -/
def notify_subscribers (db : ditto_db) (key : Key) : List Event :=
  db.subscriptions.filterMap (fun s =>
    if s.active then s.callback.map (fun cb => (cb, s.user_data, key)) else none)

/-- `ditto_put`. Result is `(status, db after the call, events emitted)`. -/
def ditto_put (db : Option ditto_db) (key : Option Key) (data : Option Bytes)
    (oracle : List Bool) : Int × Option ditto_db × List Event :=
  match db, key, data with
  | some db, some key, some data =>
    let r := hash_table_put db.table key data oracle
    let db2 := { db with table := r.2 }
    if r.1 = 0 then (r.1, some db2, notify_subscribers db2 key)
    else (r.1, some db2, [])
  | db, _, _ => (-1, db, [])

/-- `ditto_get`. Result is `(status, final inout_len target, final buffer
contents)`; a `none` length is a `NULL` `inout_len` pointer. -/
def ditto_get (db : Option ditto_db) (key : Option Key)
    (out_buf : Option Bytes) (inout_len : Option Nat) :
    Int × Option Nat × Option Bytes :=
  match db, key, inout_len with
  | some db, some key, some n =>
    let r := hash_table_get db.table key out_buf n
    (r.1, some r.2.1, r.2.2)
  | _, _, il => (-1, il, out_buf)

/-- `ditto_delete`. Result is `(status, db after the call, events)`. -/
def ditto_delete (db : Option ditto_db) (key : Option Key) :
    Int × Option ditto_db × List Event :=
  match db, key with
  | some db, some key =>
    let r := hash_table_delete db.table key
    let db2 := { db with table := r.2 }
    if r.1 = 0 then (r.1, some db2, notify_subscribers db2 key)
    else (r.1, some db2, [])
  | db, _ => (-1, db, [])

/-- The slot-scan loop of `ditto_subscribe`: activate the first inactive
slot with id `next`; `none` when every slot is active. -/
def subscribe_scan (next : Int) (cb : Nat) (ud : Nat) :
    List subscription → Option (List subscription)
  | [] => none
  | s :: rest =>
    if s.active then (subscribe_scan next cb ud rest).map (fun l => s :: l)
    else some ({ id := next, callback := some cb, user_data := ud, active := true } :: rest)

/-- `ditto_subscribe`. `out_valid` models a non-`NULL` `out_sub_id`
pointer; the returned `Option Int` is the id written through it. -/
def ditto_subscribe (db : Option ditto_db) (cb : Option Nat) (ud : Nat)
    (out_valid : Bool) : Int × Option ditto_db × Option Int :=
  match db, cb with
  | some db, some cb =>
    if out_valid then
      match subscribe_scan db.next_sub_id cb ud db.subscriptions with
      | some subs =>
        (0, some { db with subscriptions := subs, next_sub_id := db.next_sub_id + 1 },
          some db.next_sub_id)
      | none => (-1, some db, none)
    else (-1, some db, none)
  | db, _ => (-1, db, none)

/-- The scan loop of `ditto_unsubscribe`: deactivate the first active slot
whose id matches (clearing callback and context, keeping the id field);
`none` if no active slot matches. -/
def unsubscribe_scan (sub_id : Int) : List subscription → Option (List subscription)
  | [] => none
  | s :: rest =>
    if s.active && s.id = sub_id then
      some ({ id := s.id, callback := none, user_data := 0, active := false } :: rest)
    else (unsubscribe_scan sub_id rest).map (fun l => s :: l)

/-- `ditto_unsubscribe`. -/
def ditto_unsubscribe (db : Option ditto_db) (sub_id : Int) : Int × Option ditto_db :=
  match db with
  | some db =>
    match unsubscribe_scan sub_id db.subscriptions with
    | some subs => (0, some { db with subscriptions := subs })
    | none => (-1, some db)
  | none => (-1, none)

/-- One store operation through the public mutating interface, with valid
pointers for the non-modelled out-parameters. -/
inductive Op where
  | put (key : Key) (data : Bytes) (oracle : List Bool)
  | del (key : Key)
  | sub (cb : Nat) (ud : Nat)
  | unsub (id : Int)
deriving DecidableEq, Repr

/-- The store state after one operation. -/
def step (db : ditto_db) : Op → ditto_db
  | .put key data oracle => ((ditto_put (some db) (some key) (some data) oracle).2.1).getD db
  | .del key => ((ditto_delete (some db) (some key)).2.1).getD db
  | .sub cb ud => ((ditto_subscribe (some db) (some cb) ud true).2.1).getD db
  | .unsub id => ((ditto_unsubscribe (some db) id).2).getD db

/-- States reachable from a freshly opened store by mutating operations. -/
def Reachable (db : ditto_db) : Prop :=
  ∃ ops : List Op, ops.foldl step ditto_open = db

/-- The first live value stored for `key`: hash to a bucket and scan its
chain (this is exactly the lookup both `hash_table_get` and
`hash_table_delete` perform). -/
def stored (db : ditto_db) (key : Key) : Option Bytes :=
  chain_find key (db.table.buckets.getD (hash_string key) [])

/-- Ids of the currently active subscription slots, in slot order. -/
def activeIds (db : ditto_db) : List Int :=
  db.subscriptions.filterMap (fun s => if s.active then some s.id else none)

/-- `n` consecutive `ditto_subscribe` calls with the same valid arguments;
returns the final store and the `(status, written id)` pair of each call,
in call order. -/
def subscribeTimes (db : ditto_db) (cb ud : Nat) : Nat → ditto_db × List (Int × Option Int)
  | 0 => (db, [])
  | n + 1 =>
    let r := ditto_subscribe (some db) (some cb) ud true
    let rest := subscribeTimes (r.2.1.getD db) cb ud n
    (rest.1, (r.1, r.2.2) :: rest.2)

/-- Structural invariant of every reachable store: the bucket array keeps
its size, no bucket chain holds two entries for one key, the slot table
keeps its size, every active slot has a non-`NULL` callback and an id in
`[1, next_sub_id)`, active ids are pairwise distinct, and the id counter
stays at least 1. -/
def Inv (db : ditto_db) : Prop :=
  db.table.buckets.length = HASH_SIZE ∧
  (∀ b ∈ db.table.buckets, (b.map kv_entry.key).Nodup) ∧
  db.subscriptions.length = MAX_SUBSCRIPTIONS ∧
  (∀ s ∈ db.subscriptions, s.active = true →
    s.callback.isSome = true ∧ 1 ≤ s.id ∧ s.id < db.next_sub_id) ∧
  (activeIds db).Nodup ∧
  1 ≤ db.next_sub_id

/-! ### Basic list and hash lemmas -/

theorem getD_set_self {α : Type} (l : List α) (i : Nat) (x d : α) (h : i < l.length) :
    (l.set i x).getD i d = x := by
  induction l generalizing i with
  | nil => simp at h
  | cons a t ih =>
    cases i with
    | zero => rfl
    | succ n => exact ih n (by simp only [List.length_cons] at h; omega)

theorem getD_replicate_nil (n i : Nat) :
    (List.replicate n ([] : List kv_entry)).getD i [] = [] := by
  induction n generalizing i with
  | zero => simp
  | succ m ih =>
    cases i with
    | zero => rfl
    | succ j => exact ih j

theorem getD_mem {α : Type} (l : List α) (i : Nat) (d : α) (h : i < l.length) :
    l.getD i d ∈ l := by
  induction l generalizing i with
  | nil => simp at h
  | cons a t ih =>
    cases i with
    | zero => simp
    | succ n => exact List.mem_cons_of_mem a (ih n (by simpa using h))

theorem hash_lt (key : Key) : hash_string key < HASH_SIZE := by
  unfold hash_string
  exact Nat.mod_lt _ (by decide)

/-! ### Chain-level lemmas -/

theorem chain_find_eq_none {key : Key} {l : List kv_entry} :
    chain_find key l = none ↔ key ∉ l.map kv_entry.key := by
  induction l with
  | nil => simp [chain_find]
  | cons e t ih =>
    by_cases h : e.key = key
    · simp [chain_find, h]
    · simp only [chain_find, if_neg h, ih, List.map_cons, List.mem_cons]
      constructor
      · intro hn hmem
        rcases hmem with hmem | hmem
        · exact h hmem.symm
        · exact hn hmem
      · intro hn hmem
        exact hn (Or.inr hmem)

theorem chain_put_existing_eq_none {key : Key} {data : Bytes} {ok : Bool}
    {l : List kv_entry} :
    chain_put_existing key data ok l = none ↔ chain_find key l = none := by
  induction l with
  | nil => simp [chain_put_existing, chain_find]
  | cons e t ih =>
    by_cases h : e.key = key
    · cases ok <;> simp [chain_put_existing, chain_find, h]
    · simp [chain_put_existing, chain_find, h, ih]

theorem chain_put_existing_true {key : Key} {data : Bytes} {l : List kv_entry}
    {r : Int × List kv_entry} (h : chain_put_existing key data true l = some r) :
    r.1 = 0 ∧ chain_find key r.2 = some data ∧
      r.2.map kv_entry.key = l.map kv_entry.key := by
  induction l generalizing r with
  | nil => simp [chain_put_existing] at h
  | cons e t ih =>
    by_cases he : e.key = key
    · obtain ⟨r1, r2⟩ := r
      simp only [chain_put_existing, if_pos he, if_true, Option.some_inj, Prod.mk.injEq] at h
      obtain ⟨h1, h2⟩ := h
      subst h1
      subst h2
      simp [chain_find, he]
    · simp only [chain_put_existing, if_neg he, Option.map_eq_some'] at h
      obtain ⟨r1, hr1, hr⟩ := h
      obtain ⟨h1, h2, h3⟩ := ih hr1
      subst hr
      exact ⟨h1, by simp [chain_find, he, h2], by simp [h3]⟩

theorem chain_put_existing_false {key : Key} {data : Bytes} {l : List kv_entry}
    {r : Int × List kv_entry} (h : chain_put_existing key data false l = some r) :
    r = (-1, l) := by
  induction l generalizing r with
  | nil => simp [chain_put_existing] at h
  | cons e t ih =>
    by_cases he : e.key = key
    · simp only [chain_put_existing, if_pos he] at h
      simp at h
      simp [← h]
    · simp only [chain_put_existing, if_neg he, Option.map_eq_some'] at h
      obtain ⟨r1, hr1, hr⟩ := h
      have := ih hr1
      subst this
      simp at hr
      simp [← hr]

theorem chain_delete_eq_none {key : Key} {l : List kv_entry} :
    chain_delete key l = none ↔ chain_find key l = none := by
  induction l with
  | nil => simp [chain_delete, chain_find]
  | cons e t ih =>
    by_cases h : e.key = key
    · simp [chain_delete, chain_find, h]
    · simp [chain_delete, chain_find, h, ih]

theorem chain_delete_sublist {key : Key} {l l2 : List kv_entry}
    (h : chain_delete key l = some l2) : l2.Sublist l := by
  induction l generalizing l2 with
  | nil => simp [chain_delete] at h
  | cons e t ih =>
    by_cases he : e.key = key
    · simp only [chain_delete, if_pos he, Option.some_inj] at h
      subst h
      exact List.sublist_cons_self e t
    · simp only [chain_delete, if_neg he, Option.map_eq_some'] at h
      obtain ⟨l1, hl1, hl⟩ := h
      subst hl
      exact (ih hl1).cons₂ e

theorem chain_delete_find {key : Key} {l l2 : List kv_entry}
    (hnd : (l.map kv_entry.key).Nodup) (h : chain_delete key l = some l2) :
    chain_find key l2 = none := by
  induction l generalizing l2 with
  | nil => simp [chain_delete] at h
  | cons e t ih =>
    by_cases he : e.key = key
    · simp only [chain_delete, if_pos he, Option.some_inj] at h
      subst h
      rw [chain_find_eq_none]
      intro hmem
      rw [List.map_cons, List.nodup_cons] at hnd
      exact hnd.1 (he ▸ hmem)
    · simp only [chain_delete, if_neg he, Option.map_eq_some'] at h
      obtain ⟨l1, hl1, hl⟩ := h
      subst hl
      rw [List.map_cons, List.nodup_cons] at hnd
      simp only [chain_find, if_neg he]
      exact ih hnd.2 hl1

/-! ### Hash-table operation lemmas -/

theorem hash_table_put_spec (t : hash_table) (key : Key) (data : Bytes)
    (oracle : List Bool) :
    (∃ chain2,
      hash_table_put t key data oracle = (0, ⟨t.buckets.set (hash_string key) chain2⟩) ∧
      chain_find key chain2 = some data ∧
      (((t.buckets.getD (hash_string key) []).map kv_entry.key).Nodup →
        (chain2.map kv_entry.key).Nodup)) ∨
      hash_table_put t key data oracle = (-1, t) := by
  simp only [hash_table_put]
  split
  next r hc =>
    cases hok : oracle.getD 0 true with
    | false =>
      rw [hok] at hc
      have hr := chain_put_existing_false hc
      subst hr
      right
      norm_num
    | true =>
      rw [hok] at hc
      obtain ⟨h1, h2, h3⟩ := chain_put_existing_true hc
      rw [if_pos h1]
      left
      exact ⟨r.2, rfl, h2, fun hnd => h3 ▸ hnd⟩
  next hc =>
    split
    next =>
      split
      next =>
        left
        refine ⟨_, rfl, by simp [chain_find], ?_⟩
        intro hnd
        rw [List.map_cons, List.nodup_cons]
        exact ⟨chain_find_eq_none.mp (chain_put_existing_eq_none.mp hc), hnd⟩
      next => right; rfl
    next => right; rfl

theorem hash_table_put_fail {t : hash_table} {key : Key} {data : Bytes}
    {oracle : List Bool} (h : (hash_table_put t key data oracle).1 ≠ 0) :
    (hash_table_put t key data oracle).2 = t := by
  rcases hash_table_put_spec t key data oracle with ⟨c2, heq, _, _⟩ | heq
  · rw [heq] at h
    exact absurd rfl h
  · rw [heq]

theorem hash_table_put_success {t : hash_table} {key : Key} {data : Bytes}
    {oracle : List Bool} (h : (hash_table_put t key data oracle).1 = 0) :
    ∃ chain2,
      (hash_table_put t key data oracle).2 = ⟨t.buckets.set (hash_string key) chain2⟩ ∧
      chain_find key chain2 = some data ∧
      (((t.buckets.getD (hash_string key) []).map kv_entry.key).Nodup →
        (chain2.map kv_entry.key).Nodup) := by
  rcases hash_table_put_spec t key data oracle with ⟨c2, heq, h2, h3⟩ | heq
  · exact ⟨c2, by rw [heq], h2, h3⟩
  · rw [heq] at h
    norm_num at h

theorem hash_table_put_nil_succeeds (t : hash_table) (key : Key) (data : Bytes) :
    (hash_table_put t key data []).1 = 0 := by
  simp only [hash_table_put]
  split
  next r hc =>
    have hc2 : chain_put_existing key data true (t.buckets.getD (hash_string key) [])
        = some r := hc
    obtain ⟨h1, _, _⟩ := chain_put_existing_true hc2
    simp [h1]
  next hc => simp [List.getD_nil]

theorem hash_table_put_buckets_length (t : hash_table) (key : Key) (data : Bytes)
    (oracle : List Bool) :
    (hash_table_put t key data oracle).2.buckets.length = t.buckets.length := by
  rcases hash_table_put_spec t key data oracle with ⟨c2, heq, _, _⟩ | heq
  · rw [heq]
    simp
  · rw [heq]

theorem ditto_put_rc (db : ditto_db) (key : Key) (data : Bytes) (oracle : List Bool) :
    (ditto_put (some db) (some key) (some data) oracle).1
      = (hash_table_put db.table key data oracle).1 := by
  simp only [ditto_put]
  split <;> rfl

theorem ditto_put_state (db : ditto_db) (key : Key) (data : Bytes) (oracle : List Bool) :
    (ditto_put (some db) (some key) (some data) oracle).2.1
      = some { db with table := (hash_table_put db.table key data oracle).2 } := by
  simp only [ditto_put]
  split <;> rfl

theorem ditto_put_events_success {db : ditto_db} {key : Key} {data : Bytes}
    {oracle : List Bool} (h : (hash_table_put db.table key data oracle).1 = 0) :
    (ditto_put (some db) (some key) (some data) oracle).2.2
      = notify_subscribers { db with table := (hash_table_put db.table key data oracle).2 } key := by
  simp only [ditto_put]
  rw [if_pos h]

theorem ditto_put_events_fail {db : ditto_db} {key : Key} {data : Bytes}
    {oracle : List Bool} (h : (hash_table_put db.table key data oracle).1 ≠ 0) :
    (ditto_put (some db) (some key) (some data) oracle).2.2 = [] := by
  simp only [ditto_put]
  rw [if_neg h]

theorem ditto_delete_rc (db : ditto_db) (key : Key) :
    (ditto_delete (some db) (some key)).1 = (hash_table_delete db.table key).1 := by
  simp only [ditto_delete]
  split <;> rfl

theorem ditto_delete_state (db : ditto_db) (key : Key) :
    (ditto_delete (some db) (some key)).2.1
      = some { db with table := (hash_table_delete db.table key).2 } := by
  simp only [ditto_delete]
  split <;> rfl

theorem ditto_delete_events_success {db : ditto_db} {key : Key}
    (h : (hash_table_delete db.table key).1 = 0) :
    (ditto_delete (some db) (some key)).2.2
      = notify_subscribers { db with table := (hash_table_delete db.table key).2 } key := by
  simp only [ditto_delete]
  rw [if_pos h]

theorem ditto_delete_events_fail {db : ditto_db} {key : Key}
    (h : (hash_table_delete db.table key).1 ≠ 0) :
    (ditto_delete (some db) (some key)).2.2 = [] := by
  simp only [ditto_delete]
  rw [if_neg h]

theorem hash_table_delete_cases (t : hash_table) (key : Key) :
    ((hash_table_delete t key).1 = 0 ∧
      ∃ chain2, chain_delete key (t.buckets.getD (hash_string key) []) = some chain2 ∧
        (hash_table_delete t key).2 = ⟨t.buckets.set (hash_string key) chain2⟩) ∨
      hash_table_delete t key = (2, t) := by
  simp only [hash_table_delete]
  rcases hc : chain_delete key (t.buckets.getD (hash_string key) []) with _ | chain2
  · right; rfl
  · left; exact ⟨rfl, chain2, rfl, rfl⟩

theorem stored_after_put (db : ditto_db) (key : Key) (data : Bytes) (oracle : List Bool)
    (hlen : db.table.buckets.length = HASH_SIZE)
    (h : (hash_table_put db.table key data oracle).1 = 0) :
    stored { db with table := (hash_table_put db.table key data oracle).2 } key
      = some data := by
  obtain ⟨c2, hset, hfind, _⟩ := hash_table_put_success h
  unfold stored
  rw [hset]
  simp only
  rw [getD_set_self _ _ _ _ (by rw [hlen]; exact hash_lt key)]
  exact hfind

theorem ditto_get_of_stored_some {db : ditto_db} {key : Key} {V : Bytes}
    (h : stored db key = some V) (buf : Bytes) (cap : Nat) :
    ditto_get (some db) (some key) (some buf) (some cap)
      = if cap < V.length then (1, some V.length, some buf)
        else (0, some V.length, some (V ++ buf.drop V.length)) := by
  unfold stored at h
  simp only [ditto_get, hash_table_get, h]
  split <;> rfl

theorem ditto_get_of_stored_none {db : ditto_db} {key : Key}
    (h : stored db key = none) (out_buf : Option Bytes) (cap : Nat) :
    ditto_get (some db) (some key) out_buf (some cap) = (2, some cap, out_buf) := by
  unfold stored at h
  simp only [ditto_get, hash_table_get, h]

theorem step_put_nil (db : ditto_db) (key : Key) (data : Bytes) :
    step db (.put key data [])
      = { db with table := (hash_table_put db.table key data []).2 } := by
  simp only [step]
  rw [ditto_put_state]
  rfl

theorem step_del (db : ditto_db) (key : Key) :
    step db (.del key) = { db with table := (hash_table_delete db.table key).2 } := by
  simp only [step]
  rw [ditto_delete_state]
  rfl

/-! ### Claims about get, put and delete -/

/-- C2: for every well-sized store, key `K` and values `V1`, `V2` of any
lengths, `put(K, V1); put(K, V2); get(K)` with capacity at least
`len(V2)` returns status `Ok` (0), reports length `len(V2)`, and yields
the bytes `V2`; the result does not depend on `V1`. -/
theorem put_put_get_last_write_wins (db : ditto_db) (key : Key) (V1 V2 buf : Bytes)
    (cap : Nat) (hlen : db.table.buckets.length = HASH_SIZE)
    (hcap : V2.length ≤ cap) :
    ditto_get ((ditto_put ((ditto_put (some db) (some key) (some V1) []).2.1)
        (some key) (some V2) []).2.1) (some key) (some buf) (some cap)
      = (0, some V2.length, some (V2 ++ buf.drop V2.length)) := by
  rw [ditto_put_state db key V1]
  rw [ditto_put_state _ key V2]
  have hlen1 : ({ db with table := (hash_table_put db.table key V1 []).2 } :
      ditto_db).table.buckets.length = HASH_SIZE := by
    simpa [hash_table_put_buckets_length] using hlen
  have hst := stored_after_put _ key V2 []
    hlen1 (hash_table_put_nil_succeeds _ key V2)
  rw [ditto_get_of_stored_some hst buf cap]
  rw [if_neg (not_lt.mpr hcap)]

/-- C2 witness. -/
theorem put_put_get_last_write_wins_witness :
    ditto_get ((ditto_put ((ditto_put (some ditto_open) (some [97]) (some [5]) []).2.1)
        (some [97]) (some [7, 8]) []).2.1) (some [97]) (some [0, 0, 0]) (some 3)
      = (0, some 2, some [7, 8, 0]) := by
  have h := put_put_get_last_write_wins ditto_open [97] [5] [7, 8] [0, 0, 0] 3
    (by decide) (by decide)
  simpa using h

/-- C3: if `K` is stored with value `V`, `get(K)` with a valid buffer and
capacity below `len(V)` returns `BufferTooSmall` (1), reports `len(V)`,
and leaves the destination buffer unmodified; with sufficient capacity it
returns `Ok` (0); in both cases the in/out capacity is overwritten with
`len(V)`. -/
theorem get_undersized_reports_length (db : ditto_db) (key : Key) (V buf : Bytes)
    (cap : Nat) (h : stored db key = some V) :
    (cap < V.length →
      ditto_get (some db) (some key) (some buf) (some cap)
        = (1, some V.length, some buf)) ∧
    (V.length ≤ cap →
      ditto_get (some db) (some key) (some buf) (some cap)
        = (0, some V.length, some (V ++ buf.drop V.length))) := by
  rw [ditto_get_of_stored_some h buf cap]
  constructor
  · intro hlt
    rw [if_pos hlt]
  · intro hge
    rw [if_neg (not_lt.mpr hge)]

/-- C3 witness. -/
theorem get_undersized_reports_length_witness :
    ditto_get (some (step ditto_open (.put [97] [1, 2, 3] []))) (some [97])
        (some [9, 9]) (some 2) = (1, some 3, some [9, 9]) := by
  have hst : stored (step ditto_open (.put [97] [1, 2, 3] [])) [97] = some [1, 2, 3] := by
    decide
  exact (get_undersized_reports_length _ [97] [1, 2, 3] [9, 9] 2 hst).1 (by decide)

/-- C10: for a stored key, `get` with a `NULL` output buffer and a valid
length pointer returns `BufferTooSmall` (1) and writes the stored length,
whatever the incoming length value was; a `NULL` output buffer is never
rejected as an argument error (status `-1`) and nothing is copied. -/
theorem get_null_buffer_size_query (db : ditto_db) (key : Key) (V : Bytes) (n : Nat)
    (h : stored db key = some V) :
    ditto_get (some db) (some key) none (some n) = (1, some V.length, none) ∧
    (∀ (db2 : ditto_db) (key2 : Key) (m : Nat),
      (ditto_get (some db2) (some key2) none (some m)).1 ≠ -1) := by
  constructor
  · unfold stored at h
    simp only [ditto_get, hash_table_get, h]
  · intro db2 key2 m
    cases hs : stored db2 key2 with
    | none =>
      rw [ditto_get_of_stored_none hs none m]
      norm_num
    | some V2 =>
      unfold stored at hs
      simp only [ditto_get, hash_table_get, hs]
      norm_num

/-- C10 witness. -/
theorem get_null_buffer_size_query_witness :
    ditto_get (some (step ditto_open (.put [97] [1, 2, 3] []))) (some [97])
        none (some 99) = (1, some 3, none) := by
  exact (get_null_buffer_size_query (step ditto_open (.put [97] [1, 2, 3] []))
    [97] [1, 2, 3] 99 (by decide)).1

/-- C8: `get(K)` returns `NotFound` (2) exactly when no live entry for `K`
exists: every key is absent on a fresh store, and a key is absent again
after `put(K, V); delete(K)`; a stored zero-length value is present, so
`get` returns `Ok` (0) with reported length 0 at any capacity, not
`NotFound`. -/
theorem get_notfound_iff_absent (db : ditto_db) (key : Key) (buf : Bytes) (cap : Nat) :
    ((ditto_get (some db) (some key) (some buf) (some cap)).1 = 2 ↔
      stored db key = none) ∧
    (stored db key = some [] →
      ditto_get (some db) (some key) (some buf) (some cap) = (0, some 0, some buf)) ∧
    stored ditto_open key = none ∧
    (db.table.buckets.length = HASH_SIZE →
      (∀ b ∈ db.table.buckets, (b.map kv_entry.key).Nodup) →
      ∀ V : Bytes,
        (ditto_get (some (step (step db (.put key V [])) (.del key))) (some key)
          (some buf) (some cap)).1 = 2) := by
  refine ⟨?_, ?_, ?_, ?_⟩
  · cases hs : stored db key with
    | none =>
      rw [ditto_get_of_stored_none hs (some buf) cap]
      simp
    | some V =>
      rw [ditto_get_of_stored_some hs buf cap]
      constructor
      · intro h2
        split at h2 <;> simp at h2
      · intro hn
        simp at hn
  · intro h
    rw [ditto_get_of_stored_some h buf cap]
    simp
  · simp [stored, ditto_open, hash_table_create, getD_replicate_nil, chain_find]
  · intro hlen hnd V
    have h0 := hash_table_put_nil_succeeds db.table key V
    rw [step_put_nil]
    obtain ⟨c2, hset, hfind, hndp⟩ := hash_table_put_success h0
    have hidx : hash_string key < db.table.buckets.length := by
      rw [hlen]
      exact hash_lt key
    have hb1 : ({ db with table := (hash_table_put db.table key V []).2 } :
        ditto_db).table.buckets.getD (hash_string key) [] = c2 := by
      simp only [hset]
      exact getD_set_self _ _ _ _ hidx
    have hlen1 : ({ db with table := (hash_table_put db.table key V []).2 } :
        ditto_db).table.buckets.length = HASH_SIZE := by
      simp only [hset, List.length_set]
      exact hlen
    have hndc2 : (c2.map kv_entry.key).Nodup :=
      hndp (hnd _ (getD_mem _ _ _ hidx))
    rcases hc : chain_delete key c2 with _ | chain3
    · rw [chain_delete_eq_none, hfind] at hc
      simp at hc
    · have hres : hash_table_delete
          ({ db with table := (hash_table_put db.table key V []).2 } : ditto_db).table key
          = (0, ⟨({ db with table := (hash_table_put db.table key V []).2 } :
              ditto_db).table.buckets.set (hash_string key) chain3⟩) := by
        simp only [hash_table_delete, hb1, hc]
      rw [step_del, hres]
      have hst2 : stored { db with table :=
          ⟨({ db with table := (hash_table_put db.table key V []).2 } :
            ditto_db).table.buckets.set (hash_string key) chain3⟩ } key = none := by
        unfold stored
        simp only
        rw [getD_set_self _ _ _ _ (by rw [hlen1]; exact hash_lt key)]
        exact chain_delete_find hndc2 hc
      rw [ditto_get_of_stored_none hst2 (some buf) cap]

/-- C8 witness. -/
theorem get_notfound_iff_absent_witness :
    (ditto_get (some ditto_open) (some [97]) (some [9]) (some 1)).1 = 2 ∧
    (ditto_get (some (step (step ditto_open (.put [97] [1] [])) (.del [97])))
      (some [97]) (some [9]) (some 1)).1 = 2 ∧
    ditto_get (some (step ditto_open (.put [97] [] []))) (some [97]) (some [9]) (some 1)
      = (0, some 0, some [9]) := by
  refine ⟨?_, ?_, ?_⟩
  · exact (get_notfound_iff_absent ditto_open [97] [9] 1).1.mpr (by decide)
  · exact (get_notfound_iff_absent ditto_open [97] [9] 1).2.2.2 (by decide) (by decide) [1]
  · exact (get_notfound_iff_absent (step ditto_open (.put [97] [] [])) [97] [9] 1).2.1
      (by decide)

/-- C6: no operation partially applies its effect on error: a put that
fails (argument or allocation error) leaves the store exactly as it was,
and a failed delete or unsubscribe leaves the store unchanged. -/
theorem failed_ops_leave_state_unchanged (odb : Option ditto_db) (okey : Option Key)
    (odata : Option Bytes) (oracle : List Bool) (sid : Int) :
    ((ditto_put odb okey odata oracle).1 ≠ 0 →
      (ditto_put odb okey odata oracle).2.1 = odb) ∧
    ((ditto_delete odb okey).1 ≠ 0 → (ditto_delete odb okey).2.1 = odb) ∧
    ((ditto_unsubscribe odb sid).1 ≠ 0 → (ditto_unsubscribe odb sid).2 = odb) := by
  refine ⟨?_, ?_, ?_⟩
  · intro h
    match odb, okey, odata with
    | none, _, _ => rfl
    | some db, none, _ => rfl
    | some db, some key, none => rfl
    | some db, some key, some data =>
      rw [ditto_put_rc] at h
      rw [ditto_put_state, hash_table_put_fail h]
  · intro h
    match odb, okey with
    | none, _ => rfl
    | some db, none => rfl
    | some db, some key =>
      rw [ditto_delete_rc] at h
      rcases hash_table_delete_cases db.table key with ⟨h0, _⟩ | heq
      · exact absurd h0 h
      · rw [ditto_delete_state, heq]
  · intro h
    match odb with
    | none => rfl
    | some db =>
      simp only [ditto_unsubscribe] at h ⊢
      cases hs : unsubscribe_scan sid db.subscriptions with
      | none => simp [hs]
      | some subs => simp [hs] at h

/-- C6 witness. -/
theorem failed_ops_leave_state_unchanged_witness :
    (ditto_put (some ditto_open) (some [97]) (some [1]) [false]).2.1 = some ditto_open ∧
    (ditto_delete (some ditto_open) (some [97])).2.1 = some ditto_open ∧
    (ditto_unsubscribe (some ditto_open) 1).2 = some ditto_open := by
  refine ⟨?_, ?_, ?_⟩
  · exact (failed_ops_leave_state_unchanged (some ditto_open) (some [97]) (some [1])
      [false] 1).1 (by decide)
  · exact (failed_ops_leave_state_unchanged (some ditto_open) (some [97]) (some [1])
      [false] 1).2.1 (by decide)
  · exact (failed_ops_leave_state_unchanged (some ditto_open) (some [97]) (some [1])
      [false] 1).2.2 (by decide)

/-- C7 counterexample: a put that fails from an allocation failure returns
the same status (`-1`) as a put that fails argument validation (`NULL`
key), so the allocation-error status is not distinct from the
argument-error status. -/
theorem alloc_error_status_not_distinct :
    (ditto_put (some ditto_open) (some [97]) (some [1, 2, 3]) [false]).1 = -1 ∧
    (ditto_put (some ditto_open) none (some [1, 2, 3]) []).1 = -1 := by
  constructor
  · decide
  · decide

/-- C7 amended: every put returns status `0` (success) or `-1` (failure);
an allocation failure returns `-1`, which is distinct from `Ok` (0),
`BufferTooSmall` (1) and `NotFound` (2), but coincides with the status of
a put failing argument validation, so the two failure kinds are not
distinguishable by returned status. -/
theorem put_status_values (odb : Option ditto_db) (okey : Option Key)
    (odata : Option Bytes) (oracle : List Bool) :
    ((ditto_put odb okey odata oracle).1 = 0 ∨ (ditto_put odb okey odata oracle).1 = -1) ∧
    (ditto_put odb none odata oracle).1 = -1 ∧
    ((-1 : Int) ≠ 0 ∧ (-1 : Int) ≠ 1 ∧ (-1 : Int) ≠ 2) := by
  refine ⟨?_, ?_, by decide, by decide, by decide⟩
  · match odb, okey, odata with
    | none, _, _ => right; rfl
    | some db, none, _ => right; rfl
    | some db, some key, none => right; rfl
    | some db, some key, some data =>
      rw [ditto_put_rc]
      rcases hash_table_put_spec db.table key data oracle with ⟨c2, heq, _, _⟩ | heq
      · left; rw [heq]
      · right; rw [heq]
  · match odb, odata with
    | none, _ => rfl
    | some db, none => rfl
    | some db, some data => rfl

/-! ### Subscription-registry lemmas -/

theorem step_put (db : ditto_db) (key : Key) (data : Bytes) (oracle : List Bool) :
    step db (.put key data oracle)
      = { db with table := (hash_table_put db.table key data oracle).2 } := by
  simp only [step]
  rw [ditto_put_state]
  rfl

theorem step_sub (db : ditto_db) (cb ud : Nat) :
    step db (.sub cb ud)
      = match subscribe_scan db.next_sub_id cb ud db.subscriptions with
        | some subs =>
          { db with subscriptions := subs, next_sub_id := db.next_sub_id + 1 }
        | none => db := by
  simp only [step, ditto_subscribe]
  cases hs : subscribe_scan db.next_sub_id cb ud db.subscriptions <;> simp [hs]

theorem step_unsub (db : ditto_db) (sid : Int) :
    step db (.unsub sid)
      = match unsubscribe_scan sid db.subscriptions with
        | some subs => { db with subscriptions := subs }
        | none => db := by
  simp only [step, ditto_unsubscribe]
  cases hs : unsubscribe_scan sid db.subscriptions <;> simp [hs]

theorem subscribe_scan_structure {next : Int} {cb ud : Nat}
    {l l2 : List subscription} (h : subscribe_scan next cb ud l = some l2) :
    ∃ pre s0 post, l = pre ++ s0 :: post ∧
      l2 = pre ++
        ({ id := next, callback := some cb, user_data := ud, active := true } :
          subscription) :: post ∧
      (∀ s ∈ pre, s.active = true) ∧ s0.active = false := by
  induction l generalizing l2 with
  | nil => simp [subscribe_scan] at h
  | cons s t ih =>
    by_cases ha : s.active = true
    · simp only [subscribe_scan, if_pos ha, Option.map_eq_some'] at h
      obtain ⟨l1, hl1, hl⟩ := h
      obtain ⟨pre, s0, post, h1, h2, h3, h4⟩ := ih hl1
      refine ⟨s :: pre, s0, post, by simp [h1], by simp [← hl, h2], ?_, h4⟩
      intro x hx
      rcases List.mem_cons.mp hx with rfl | hx
      · exact ha
      · exact h3 x hx
    · simp only [subscribe_scan, if_neg ha, Option.some_inj] at h
      exact ⟨[], s, t, rfl, by simp [← h], by simp, by simpa using ha⟩

theorem unsubscribe_scan_structure {sub_id : Int} {l l2 : List subscription}
    (h : unsubscribe_scan sub_id l = some l2) :
    ∃ pre s0 post, l = pre ++ s0 :: post ∧
      l2 = pre ++
        ({ id := s0.id, callback := none, user_data := 0, active := false} :
          subscription) :: post ∧
      (∀ s ∈ pre, ¬(s.active = true ∧ s.id = sub_id)) ∧
      s0.active = true ∧ s0.id = sub_id := by
  induction l generalizing l2 with
  | nil => simp [unsubscribe_scan] at h
  | cons s t ih =>
    by_cases ha : s.active = true ∧ s.id = sub_id
    · have hcond : (s.active && decide (s.id = sub_id)) = true := by
        simp [ha.1, ha.2]
      simp only [unsubscribe_scan, if_pos hcond, Option.some_inj] at h
      exact ⟨[], s, t, rfl, by simp [← h], by simp, ha.1, ha.2⟩
    · have hcond : ¬((s.active && decide (s.id = sub_id)) = true) := by
        simp only [Bool.and_eq_true, decide_eq_true_eq]
        exact ha
      simp only [unsubscribe_scan, if_neg hcond, Option.map_eq_some'] at h
      obtain ⟨l1, hl1, hl⟩ := h
      obtain ⟨pre, s0, post, h1, h2, h3, h4, h5⟩ := ih hl1
      refine ⟨s :: pre, s0, post, by simp [h1], by simp [← hl, h2], ?_, h4, h5⟩
      intro x hx
      rcases List.mem_cons.mp hx with rfl | hx
      · exact ha
      · exact h3 x hx

theorem unsubscribe_scan_eq_none {sub_id : Int} {l : List subscription} :
    unsubscribe_scan sub_id l = none ↔
      ∀ s ∈ l, ¬(s.active = true ∧ s.id = sub_id) := by
  induction l with
  | nil => simp [unsubscribe_scan]
  | cons s t ih =>
    by_cases ha : s.active = true ∧ s.id = sub_id
    · have hcond : (s.active && decide (s.id = sub_id)) = true := by
        simp [ha.1, ha.2]
      simp only [unsubscribe_scan, if_pos hcond]
      simp only [List.mem_cons]
      constructor
      · intro hfalse
        exact absurd hfalse (by simp)
      · intro hall
        exact absurd ha (hall s (Or.inl rfl))
    · have hcond : ¬((s.active && decide (s.id = sub_id)) = true) := by
        simp only [Bool.and_eq_true, decide_eq_true_eq]
        exact ha
      simp only [unsubscribe_scan, if_neg hcond, Option.map_eq_none', ih]
      constructor
      · intro hall x hx
        rcases List.mem_cons.mp hx with rfl | hx
        · exact ha
        · exact hall x hx
      · intro hall x hx
        exact hall x (List.mem_cons_of_mem s hx)

theorem mem_slotIds {l : List subscription} {i : Int} :
    i ∈ l.filterMap (fun s => if s.active then some s.id else none) ↔
      ∃ s ∈ l, s.active = true ∧ s.id = i := by
  rw [List.mem_filterMap]
  constructor
  · rintro ⟨s, hs, hf⟩
    by_cases ha : s.active = true
    · rw [if_pos ha, Option.some_inj] at hf
      exact ⟨s, hs, ha, hf⟩
    · rw [if_neg ha] at hf
      exact absurd hf (by simp)
  · rintro ⟨s, hs, ha, hi⟩
    exact ⟨s, hs, by rw [if_pos ha, hi]⟩

theorem mem_activeIds {db : ditto_db} {i : Int} :
    i ∈ activeIds db ↔ ∃ s ∈ db.subscriptions, s.active = true ∧ s.id = i :=
  mem_slotIds

theorem activeIds_table_update (db : ditto_db) (t : hash_table) :
    activeIds { db with table := t } = activeIds db := rfl

/-- Every reachable-state invariant is preserved by every operation. -/
theorem Inv_step {db : ditto_db} (h : Inv db) (op : Op) : Inv (step db op) := by
  obtain ⟨hbl, hbnd, hsl, hslots, hnodup, hnext⟩ := h
  cases op with
  | put key data oracle =>
    rw [step_put]
    refine ⟨?_, ?_, hsl, hslots, hnodup, hnext⟩
    · rw [hash_table_put_buckets_length]
      exact hbl
    · rcases hash_table_put_spec db.table key data oracle with ⟨c2, heq, _, hndp⟩ | heq
      · rw [heq]
        intro b hb
        rcases List.mem_or_eq_of_mem_set hb with hb | rfl
        · exact hbnd b hb
        · exact hndp (hbnd _ (getD_mem _ _ _ (by rw [hbl]; exact hash_lt key)))
      · rw [heq]
        exact hbnd
  | del key =>
    rw [step_del]
    refine ⟨?_, ?_, hsl, hslots, hnodup, hnext⟩
    · rcases hash_table_delete_cases db.table key with ⟨_, c2, _, heq⟩ | heq
      · rw [heq]
        simp [hbl]
      · rw [heq]
        exact hbl
    · rcases hash_table_delete_cases db.table key with ⟨_, c2, hc, heq⟩ | heq
      · rw [heq]
        intro b hb
        rcases List.mem_or_eq_of_mem_set hb with hb | rfl
        · exact hbnd b hb
        · exact ((chain_delete_sublist hc).map kv_entry.key).nodup
            (hbnd _ (getD_mem _ _ _ (by rw [hbl]; exact hash_lt key)))
      · rw [heq]
        exact hbnd
  | sub cb ud =>
    rw [step_sub]
    cases hs : subscribe_scan db.next_sub_id cb ud db.subscriptions with
    | none => exact ⟨hbl, hbnd, hsl, hslots, hnodup, hnext⟩
    | some subs =>
      show Inv { db with subscriptions := subs, next_sub_id := db.next_sub_id + 1 }
      obtain ⟨pre, s0, post, hl, hl2, hpre, hs0⟩ := subscribe_scan_structure hs
      refine ⟨hbl, hbnd, ?_, ?_, ?_, ?_⟩
      · simp only [hl2]
        simp only [hl] at hsl
        simpa using hsl
      · intro s hsmem hact
        simp only [hl2, List.mem_append, List.mem_cons] at hsmem
        rcases hsmem with hsmem | rfl | hsmem
        · have hmem : s ∈ db.subscriptions := by
            rw [hl]
            exact List.mem_append_left _ hsmem
          obtain ⟨h1, h2, h3⟩ := hslots s hmem hact
          exact ⟨h1, h2, lt_trans h3 (lt_add_one _)⟩
        · exact ⟨rfl, hnext, lt_add_one _⟩
        · have hmem : s ∈ db.subscriptions := by
            rw [hl]
            exact List.mem_append_right _ (List.mem_cons_of_mem s0 hsmem)
          obtain ⟨h1, h2, h3⟩ := hslots s hmem hact
          exact ⟨h1, h2, lt_trans h3 (lt_add_one _)⟩
      · have hact0 : activeIds db
            = (pre.filterMap (fun s => if s.active then some s.id else none))
              ++ (post.filterMap (fun s => if s.active then some s.id else none)) := by
          unfold activeIds
          rw [hl, List.filterMap_append, List.filterMap_cons, if_neg (by simp [hs0])]
        have hact2 : activeIds ({ db with subscriptions := subs, next_sub_id := db.next_sub_id + 1 } : ditto_db)
            = (pre.filterMap (fun s => if s.active then some s.id else none))
              ++ db.next_sub_id
              :: (post.filterMap (fun s => if s.active then some s.id else none)) := by
          unfold activeIds
          simp only [hl2, List.filterMap_append, List.filterMap_cons]
          rfl
        rw [hact2, List.nodup_middle]
        rw [hact0] at hnodup
        refine List.nodup_cons.mpr ⟨?_, hnodup⟩
        intro hmem
        have : ∃ s ∈ pre ++ post, s.active = true ∧ s.id = db.next_sub_id := by
          rw [← List.filterMap_append] at hmem
          exact mem_slotIds.mp hmem
        obtain ⟨s, hsmem, hact, hid⟩ := this
        have hmem2 : s ∈ db.subscriptions := by
          rw [hl]
          rcases List.mem_append.mp hsmem with hm | hm
          · exact List.mem_append_left _ hm
          · exact List.mem_append_right _ (List.mem_cons_of_mem s0 hm)
        exact absurd (hid ▸ (hslots s hmem2 hact).2.2) (lt_irrefl _)
      · exact le_trans hnext (le_of_lt (lt_add_one _))
  | unsub sid =>
    rw [step_unsub]
    cases hs : unsubscribe_scan sid db.subscriptions with
    | none => exact ⟨hbl, hbnd, hsl, hslots, hnodup, hnext⟩
    | some subs =>
      show Inv { db with subscriptions := subs }
      obtain ⟨pre, s0, post, hl, hl2, hpre, hs0a, hs0i⟩ := unsubscribe_scan_structure hs
      have hact0 : activeIds db
          = (pre.filterMap (fun s => if s.active then some s.id else none))
            ++ s0.id
            :: (post.filterMap (fun s => if s.active then some s.id else none)) := by
        unfold activeIds
        rw [hl, List.filterMap_append, List.filterMap_cons, if_pos hs0a]
      have hact2 : activeIds { db with subscriptions := subs }
          = (pre.filterMap (fun s => if s.active then some s.id else none))
            ++ (post.filterMap (fun s => if s.active then some s.id else none)) := by
        unfold activeIds
        simp only [hl2, List.filterMap_append, List.filterMap_cons]
        rfl
      refine ⟨hbl, hbnd, ?_, ?_, ?_, hnext⟩
      · simp only [hl2]
        simp only [hl] at hsl
        simpa using hsl
      · intro s hsmem hact
        simp only [hl2, List.mem_append, List.mem_cons] at hsmem
        rcases hsmem with hsmem | rfl | hsmem
        · exact hslots s (by rw [hl]; exact List.mem_append_left _ hsmem) hact
        · simp at hact
        · exact hslots s
            (by rw [hl]; exact List.mem_append_right _ (List.mem_cons_of_mem s0 hsmem)) hact
      · rw [hact2]
        rw [hact0] at hnodup
        exact (List.nodup_middle.mp hnodup).of_cons

theorem Inv_ditto_open : Inv ditto_open := by
  refine ⟨rfl, ?_, rfl, ?_, ?_, le_refl 1⟩
  · intro b hb
    rw [List.eq_of_mem_replicate hb]
    simp
  · intro s hs hact
    rw [List.eq_of_mem_replicate hs] at hact
    simp at hact
  · decide

theorem Inv_foldl {db : ditto_db} (h : Inv db) (ops : List Op) :
    Inv (ops.foldl step db) := by
  induction ops generalizing db with
  | nil => exact h
  | cons op rest ih => exact ih (Inv_step h op)

theorem Inv_reachable {db : ditto_db} (h : Reachable db) : Inv db := by
  obtain ⟨ops, rfl⟩ := h
  exact Inv_foldl Inv_ditto_open ops

theorem ditto_subscribe_of_scan_some {db : ditto_db} {cb ud : Nat}
    {subs : List subscription}
    (hs : subscribe_scan db.next_sub_id cb ud db.subscriptions = some subs) :
    ditto_subscribe (some db) (some cb) ud true
      = (0, some { db with subscriptions := subs, next_sub_id := db.next_sub_id + 1 },
         some db.next_sub_id) := by
  simp [ditto_subscribe, hs]

theorem ditto_subscribe_of_scan_none {db : ditto_db} {cb ud : Nat}
    (hs : subscribe_scan db.next_sub_id cb ud db.subscriptions = none) :
    ditto_subscribe (some db) (some cb) ud true = (-1, some db, none) := by
  simp [ditto_subscribe, hs]

theorem filterMap_notify_eq (key : Key) (l : List subscription)
    (hl : ∀ s ∈ l, s.active = true → s.callback.isSome = true) :
    l.filterMap (fun s =>
        if s.active then s.callback.map (fun cb => (cb, s.user_data, key)) else none)
      = (l.filter (fun s => s.active)).map
          (fun s => (s.callback.getD 0, s.user_data, key)) := by
  induction l with
  | nil => rfl
  | cons s t ih =>
    have ih2 := ih (fun x hx => hl x (List.mem_cons_of_mem s hx))
    by_cases ha : s.active = true
    · rcases hcb : s.callback with _ | cb
      · have hsome := hl s (List.mem_cons_self s t) ha
        rw [hcb] at hsome
        simp at hsome
      · simp [List.filterMap_cons, List.filter_cons, ha, hcb, ih2]
    · simp [List.filterMap_cons, List.filter_cons, ha, ih2]

theorem put_events_sources {db : ditto_db} {key : Key} {data : Bytes}
    {oracle : List Bool} :
    ∀ e ∈ (ditto_put (some db) (some key) (some data) oracle).2.2,
      ∃ s ∈ db.subscriptions, s.active = true ∧
        e = (s.callback.getD 0, s.user_data, key) := by
  intro e he
  by_cases h0 : (hash_table_put db.table key data oracle).1 = 0
  · rw [ditto_put_events_success h0] at he
    have he2 : e ∈ db.subscriptions.filterMap (fun s =>
        if s.active then s.callback.map (fun cb => (cb, s.user_data, key)) else none) := he
    obtain ⟨s, hsmem, hf⟩ := List.mem_filterMap.mp he2
    by_cases ha : s.active = true
    · rw [if_pos ha] at hf
      obtain ⟨cb, hcb, hee⟩ := Option.map_eq_some'.mp hf
      refine ⟨s, hsmem, ha, ?_⟩
      rw [← hee, hcb]
      rfl
    · rw [if_neg ha] at hf
      exact absurd hf (by simp)
  · rw [ditto_put_events_fail h0] at he
    simp at he

theorem delete_events_sources {db : ditto_db} {key : Key} :
    ∀ e ∈ (ditto_delete (some db) (some key)).2.2,
      ∃ s ∈ db.subscriptions, s.active = true ∧
        e = (s.callback.getD 0, s.user_data, key) := by
  intro e he
  by_cases h0 : (hash_table_delete db.table key).1 = 0
  · rw [ditto_delete_events_success h0] at he
    have he2 : e ∈ db.subscriptions.filterMap (fun s =>
        if s.active then s.callback.map (fun cb => (cb, s.user_data, key)) else none) := he
    obtain ⟨s, hsmem, hf⟩ := List.mem_filterMap.mp he2
    by_cases ha : s.active = true
    · rw [if_pos ha] at hf
      obtain ⟨cb, hcb, hee⟩ := Option.map_eq_some'.mp hf
      refine ⟨s, hsmem, ha, ?_⟩
      rw [← hee, hcb]
      rfl
    · rw [if_neg ha] at hf
      exact absurd hf (by simp)
  · rw [ditto_delete_events_fail h0] at he
    simp at he

/-! ### Claims about the notification registry -/

/-- C1: on every reachable store, a successful `put` or `delete` of key
`K` invokes, before it returns, exactly one callback per currently-active
subscription, in slot order, passing each subscription's registered
context and `K` (the event list equals the slot-ordered map over the
active slots); a `put` or `delete` that fails — argument error, allocation
error, or not-found — invokes no callback. -/
theorem mutation_notifies_active_subscriptions (db : ditto_db) (h : Reachable db) :
    (∀ (key : Key) (data : Bytes) (oracle : List Bool),
      (ditto_put (some db) (some key) (some data) oracle).1 = 0 →
      (ditto_put (some db) (some key) (some data) oracle).2.2
        = (db.subscriptions.filter (fun s => s.active)).map
            (fun s => (s.callback.getD 0, s.user_data, key))) ∧
    (∀ key : Key,
      (ditto_delete (some db) (some key)).1 = 0 →
      (ditto_delete (some db) (some key)).2.2
        = (db.subscriptions.filter (fun s => s.active)).map
            (fun s => (s.callback.getD 0, s.user_data, key))) ∧
    (∀ (odb : Option ditto_db) (okey : Option Key) (odata : Option Bytes)
        (oracle : List Bool),
      ((ditto_put odb okey odata oracle).1 ≠ 0 →
        (ditto_put odb okey odata oracle).2.2 = []) ∧
      ((ditto_delete odb okey).1 ≠ 0 → (ditto_delete odb okey).2.2 = [])) := by
  obtain ⟨_, _, _, hslots, _, _⟩ := Inv_reachable h
  refine ⟨?_, ?_, ?_⟩
  · intro key data oracle h0
    rw [ditto_put_rc] at h0
    rw [ditto_put_events_success h0]
    exact filterMap_notify_eq key db.subscriptions (fun s hs ha => (hslots s hs ha).1)
  · intro key h0
    rw [ditto_delete_rc] at h0
    rw [ditto_delete_events_success h0]
    exact filterMap_notify_eq key db.subscriptions (fun s hs ha => (hslots s hs ha).1)
  · intro odb okey odata oracle
    constructor
    · intro h0
      match odb, okey, odata with
      | none, _, _ => rfl
      | some dbx, none, _ => rfl
      | some dbx, some keyx, none => rfl
      | some dbx, some keyx, some datax =>
        rw [ditto_put_rc] at h0
        exact ditto_put_events_fail h0
    · intro h0
      match odb, okey with
      | none, _ => rfl
      | some dbx, none => rfl
      | some dbx, some keyx =>
        rw [ditto_delete_rc] at h0
        exact ditto_delete_events_fail h0

/-- C1 witness. -/
theorem mutation_notifies_active_subscriptions_witness :
    (ditto_put (some (step ditto_open (.sub 7 5))) (some [120]) (some [1]) []).2.2
      = [(7, 5, [120])] := by
  have h := (mutation_notifies_active_subscriptions (step ditto_open (.sub 7 5))
    ⟨[Op.sub 7 5], rfl⟩).1 [120] [1] [] (by decide)
  rw [h]
  decide

/-- C5: on every reachable store, active subscription ids are pairwise
distinct and lie in `[1, next_sub_id)`; a successful subscribe hands out
exactly the current counter value as the id and bumps the counter by one
(so ids are sequential from 1 and strictly increasing across successful
subscribes), and the counter never decreases under any operation — hence
a released id, being below the counter forever after, is never assigned
to a different registration. -/
theorem subscription_ids_sequential_unique (db : ditto_db) (h : Reachable db) :
    (activeIds db).Nodup ∧
    (∀ i ∈ activeIds db, 1 ≤ i ∧ i < db.next_sub_id) ∧
    (∀ cb ud : Nat,
      (ditto_subscribe (some db) (some cb) ud true).1 = 0 →
      (ditto_subscribe (some db) (some cb) ud true).2.2 = some db.next_sub_id ∧
      ∀ db2, (ditto_subscribe (some db) (some cb) ud true).2.1 = some db2 →
        db2.next_sub_id = db.next_sub_id + 1 ∧ db.next_sub_id ∈ activeIds db2) ∧
    (∀ op : Op, db.next_sub_id ≤ (step db op).next_sub_id) := by
  obtain ⟨_, _, _, hslots, hnodup, hnext⟩ := Inv_reachable h
  refine ⟨hnodup, ?_, ?_, ?_⟩
  · intro i hi
    obtain ⟨s, hsmem, hact, hid⟩ := mem_activeIds.mp hi
    obtain ⟨_, h1, h2⟩ := hslots s hsmem hact
    exact ⟨hid ▸ h1, hid ▸ h2⟩
  · intro cb ud h0
    cases hs : subscribe_scan db.next_sub_id cb ud db.subscriptions with
    | none =>
      rw [ditto_subscribe_of_scan_none hs] at h0
      norm_num at h0
    | some subs =>
      rw [ditto_subscribe_of_scan_some hs]
      refine ⟨rfl, ?_⟩
      intro db2 hdb2
      rw [Option.some_inj] at hdb2
      obtain ⟨pre, s0, post, hl, hl2, _, _⟩ := subscribe_scan_structure hs
      subst hdb2
      refine ⟨rfl, ?_⟩
      have hmem : db.next_sub_id ∈ subs.filterMap
          (fun s => if s.active then some s.id else none) := by
        apply mem_slotIds.mpr
        refine ⟨{ id := db.next_sub_id, callback := some cb, user_data := ud, active := true }, ?_, rfl, rfl⟩
        rw [hl2]
        exact List.mem_append_right _ (List.mem_cons_self _ _)
      exact hmem
  · intro op
    cases op with
    | put key data oracle => rw [step_put]
    | del key => rw [step_del]
    | sub cb ud =>
      rw [step_sub]
      cases hs : subscribe_scan db.next_sub_id cb ud db.subscriptions with
      | none => exact le_refl _
      | some subs =>
        show db.next_sub_id ≤ db.next_sub_id + 1
        exact le_of_lt (lt_add_one _)
    | unsub sid =>
      rw [step_unsub]
      cases hs : unsubscribe_scan sid db.subscriptions with
      | none => exact le_refl _
      | some subs => exact le_refl _

/-- C5 witness. -/
theorem subscription_ids_sequential_unique_witness :
    (activeIds (step ditto_open (.sub 7 5))).Nodup ∧
    (ditto_subscribe (some (step ditto_open (.sub 7 5))) (some 8) 6 true).2.2
      = some (step ditto_open (.sub 7 5)).next_sub_id := by
  have h := subscription_ids_sequential_unique (step ditto_open (.sub 7 5))
    ⟨[Op.sub 7 5], rfl⟩
  exact ⟨h.1, (h.2.2.1 8 6 (by decide)).1⟩

theorem step_preserves_absent_id {S : Int} {db : ditto_db}
    (h1 : S ∉ activeIds db) (h2 : S < db.next_sub_id) (op : Op) :
    S ∉ activeIds (step db op) ∧ S < (step db op).next_sub_id := by
  cases op with
  | put key data oracle =>
    rw [step_put]
    exact ⟨h1, h2⟩
  | del key =>
    rw [step_del]
    exact ⟨h1, h2⟩
  | sub cb ud =>
    rw [step_sub]
    cases hs : subscribe_scan db.next_sub_id cb ud db.subscriptions with
    | none => exact ⟨h1, h2⟩
    | some subs =>
      obtain ⟨pre, s0, post, hl, hl2, _, _⟩ := subscribe_scan_structure hs
      constructor
      · intro hmem
        have hmem2 : S ∈ subs.filterMap
            (fun s => if s.active then some s.id else none) := hmem
        obtain ⟨s, hsmem, hact, hid⟩ := mem_slotIds.mp hmem2
        rw [hl2] at hsmem
        rcases List.mem_append.mp hsmem with hm | hm
        · refine h1 (mem_activeIds.mpr ⟨s, ?_, hact, hid⟩)
          rw [hl]
          exact List.mem_append_left _ hm
        · rcases List.mem_cons.mp hm with rfl | hm
          · have hid2 : db.next_sub_id = S := hid
            omega
          · refine h1 (mem_activeIds.mpr ⟨s, ?_, hact, hid⟩)
            rw [hl]
            exact List.mem_append_right _ (List.mem_cons_of_mem s0 hm)
      · show S < db.next_sub_id + 1
        omega
  | unsub sid =>
    rw [step_unsub]
    cases hs : unsubscribe_scan sid db.subscriptions with
    | none => exact ⟨h1, h2⟩
    | some subs =>
      obtain ⟨pre, s0, post, hl, hl2, _, _, _⟩ := unsubscribe_scan_structure hs
      constructor
      · intro hmem
        have hmem2 : S ∈ subs.filterMap
            (fun s => if s.active then some s.id else none) := hmem
        obtain ⟨s, hsmem, hact, hid⟩ := mem_slotIds.mp hmem2
        rw [hl2] at hsmem
        apply h1
        rcases List.mem_append.mp hsmem with hm | hm
        · refine mem_activeIds.mpr ⟨s, ?_, hact, hid⟩
          rw [hl]
          exact List.mem_append_left _ hm
        · rcases List.mem_cons.mp hm with rfl | hm
          · simp at hact
          · refine mem_activeIds.mpr ⟨s, ?_, hact, hid⟩
            rw [hl]
            exact List.mem_append_right _ (List.mem_cons_of_mem s0 hm)
      · exact h2

theorem foldl_preserves_absent_id {S : Int} {db : ditto_db}
    (h1 : S ∉ activeIds db) (h2 : S < db.next_sub_id) (ops : List Op) :
    S ∉ activeIds (ops.foldl step db) ∧ S < (ops.foldl step db).next_sub_id := by
  induction ops generalizing db with
  | nil => exact ⟨h1, h2⟩
  | cons op rest ih =>
    obtain ⟨g1, g2⟩ := step_preserves_absent_id h1 h2 op
    exact ih g1 g2

/-- C9: on every reachable store, after `unsubscribe(S)` succeeds the slot
holding id `S` is inactive, an immediate second `unsubscribe(S)` returns
the not-found status `-1`, and after any further sequence of operations no
slot is ever active with id `S` again, so every callback invocation of a
later `put` or `delete` comes from a subscription other than `S`. -/
theorem unsubscribe_deactivates_permanently (db : ditto_db) (h : Reachable db)
    (S : Int) (db2 : ditto_db)
    (hu : ditto_unsubscribe (some db) S = (0, some db2)) :
    S ∉ activeIds db2 ∧
    (ditto_unsubscribe (some db2) S).1 = -1 ∧
    (∀ (ops : List Op) (key : Key) (data : Bytes) (oracle : List Bool),
      S ∉ activeIds (ops.foldl step db2) ∧
      (∀ e ∈ (ditto_put (some (ops.foldl step db2)) (some key) (some data) oracle).2.2,
        ∃ s ∈ (ops.foldl step db2).subscriptions,
          s.active = true ∧ s.id ≠ S ∧ e = (s.callback.getD 0, s.user_data, key)) ∧
      (∀ e ∈ (ditto_delete (some (ops.foldl step db2)) (some key)).2.2,
        ∃ s ∈ (ops.foldl step db2).subscriptions,
          s.active = true ∧ s.id ≠ S ∧ e = (s.callback.getD 0, s.user_data, key))) := by
  obtain ⟨_, _, _, hslots, hnodup, _⟩ := Inv_reachable h
  rcases hscan : unsubscribe_scan S db.subscriptions with _ | subs
  · simp only [ditto_unsubscribe, hscan, Prod.mk.injEq] at hu
    norm_num at hu
  · simp only [ditto_unsubscribe, hscan, Prod.mk.injEq, Option.some_inj] at hu
    obtain ⟨-, hdb2⟩ := hu
    obtain ⟨pre, s0, post, hl, hl2, hpre, hs0a, hs0i⟩ := unsubscribe_scan_structure hscan
    have hS_lt : S < db.next_sub_id := by
      have hmem : s0 ∈ db.subscriptions := by
        rw [hl]
        exact List.mem_append_right _ (List.mem_cons_self _ _)
      exact hs0i ▸ (hslots s0 hmem hs0a).2.2
    have hact0 : activeIds db
        = (pre.filterMap (fun s => if s.active then some s.id else none))
          ++ S :: (post.filterMap (fun s => if s.active then some s.id else none)) := by
      unfold activeIds
      rw [hl, List.filterMap_append, List.filterMap_cons, if_pos hs0a, hs0i]
    have hS_not : S ∉ activeIds db2 := by
      intro hmem
      have hmem2 : S ∈ subs.filterMap
          (fun s => if s.active then some s.id else none) := by
        rw [← hdb2] at hmem
        exact hmem
      rw [hl2, List.filterMap_append, List.filterMap_cons] at hmem2
      rw [if_neg (by simp)] at hmem2
      rw [hact0] at hnodup
      have hnotin := List.nodup_middle.mp hnodup
      rw [List.nodup_cons] at hnotin
      exact hnotin.1 (List.mem_append.mpr ((List.mem_append.mp hmem2).imp id id))
    have hS_lt2 : S < db2.next_sub_id := by
      rw [← hdb2]
      exact hS_lt
    refine ⟨hS_not, ?_, ?_⟩
    · have hscan2 : unsubscribe_scan S db2.subscriptions = none := by
        rw [unsubscribe_scan_eq_none]
        intro s hsmem hcond
        exact hS_not (mem_activeIds.mpr ⟨s, hsmem, hcond.1, hcond.2⟩)
      simp [ditto_unsubscribe, hscan2]
    · intro ops key data oracle
      obtain ⟨g1, g2⟩ := foldl_preserves_absent_id hS_not hS_lt2 ops
      refine ⟨g1, ?_, ?_⟩
      · intro e he
        obtain ⟨s, hsmem, hact, hee⟩ := put_events_sources e he
        refine ⟨s, hsmem, hact, ?_, hee⟩
        intro hid
        exact g1 (mem_activeIds.mpr ⟨s, hsmem, hact, hid⟩)
      · intro e he
        obtain ⟨s, hsmem, hact, hee⟩ := delete_events_sources e he
        refine ⟨s, hsmem, hact, ?_, hee⟩
        intro hid
        exact g1 (mem_activeIds.mpr ⟨s, hsmem, hact, hid⟩)

/-- C9 witness. -/
theorem unsubscribe_deactivates_permanently_witness :
    (ditto_unsubscribe
      (some ((ditto_unsubscribe (some (step ditto_open (.sub 7 5))) 1).2.getD ditto_open))
      1).1 = -1 := by
  exact (unsubscribe_deactivates_permanently (step ditto_open (.sub 7 5))
    ⟨[Op.sub 7 5], rfl⟩ 1 _ (by decide)).2.1

/-- C4: from a freshly opened store, exactly `MAX_SUBSCRIPTIONS` (100)
subscribe calls with valid arguments succeed, handing out ids 1 to 100;
the 101st subscribe reports the no-capacity status `-1` (a returned
status, not a crash); after one unsubscribe, a further subscribe succeeds
again. -/
theorem subscribe_exactly_max_subscriptions :
    (∀ r ∈ (subscribeTimes ditto_open 7 5 MAX_SUBSCRIPTIONS).2, r.1 = 0) ∧
    (subscribeTimes ditto_open 7 5 MAX_SUBSCRIPTIONS).2.map (fun r => r.2)
      = (List.range MAX_SUBSCRIPTIONS).map (fun i => some ((i : Int) + 1)) ∧
    (ditto_subscribe (some (subscribeTimes ditto_open 7 5 MAX_SUBSCRIPTIONS).1)
      (some 7) 5 true).1 = -1 ∧
    (ditto_subscribe
      ((ditto_unsubscribe (some (subscribeTimes ditto_open 7 5 MAX_SUBSCRIPTIONS).1) 1).2)
      (some 7) 5 true).1 = 0 := by
  refine ⟨by decide, by decide, by decide, by decide⟩

/-- C4 witness. -/
theorem subscribe_exactly_max_subscriptions_witness :
    ((subscribeTimes ditto_open 7 5 MAX_SUBSCRIPTIONS).2.headD (-1, none)).1 = 0 := by
  exact subscribe_exactly_max_subscriptions.1 _ (by decide)

end Ditto
